import Mathlib

/-!
Verification of the input-cursor core of the regex crate (`src/input.rs`).

The byte buffer is modelled as `List Nat` (each element a byte value).
Unicode scalar values are modelled as `Nat` code points satisfying `IsScalar`.
The sentinel-packed optional character `Char` of the source is a one-field
structure holding the `u32` payload, with `u32::MAX` meaning "absent".
The external collaborators that are not part of this file's source
(the forward/backward UTF-8 decoders from `utf8.rs` and the literal
searcher from `literals.rs`) are modelled from the spec, as marked on
their doc comments.
-/

/-- The value `u32::MAX`, used by the source as the "absent" sentinel. -/
def U32_MAX : Nat := 4294967295

/-- A Unicode scalar value: a code point in `0..=0x10FFFF` that is not a
surrogate. This is exactly the set of values Rust's `char` can hold. -/
def IsScalar (n : Nat) : Prop := n ≤ 0x10FFFF ∧ ¬ (0xD800 ≤ n ∧ n ≤ 0xDFFF)

instance (n : Nat) : Decidable (IsScalar n) := by
  unfold IsScalar; exact inferInstance

/-- Models Rust's `std::char::from_u32`: `Some` exactly on Unicode scalar
values, `None` on surrogates and on values above `0x10FFFF`. -/
def char_from_u32 (n : Nat) : Option Nat :=
  if 0x10FFFF < n ∨ (0xD800 ≤ n ∧ n ≤ 0xDFFF) then none else some n

/-- Models Rust's `char::len_utf8` on a scalar value: the number of bytes of
its UTF-8 encoding. -/
def char_len_utf8 (n : Nat) : Nat :=
  if n < 0x80 then 1
  else if n < 0x800 then 2
  else if n < 0x10000 then 3
  else 4

/-- The source's `Char`: an inline representation of `Option<char>` packed
into a single `u32`, with `u32::MAX` meaning the character is absent. -/
structure Regex.Char where
  val : Nat
deriving DecidableEq

/-- Source `Char::is_none`: true iff the character is absent. -/
def Regex.Char.is_none (c : Regex.Char) : Bool := c.val == U32_MAX

/-- Source `Char::len_utf8`:
`char::from_u32(self.0).map_or(0, |c| c.len_utf8())`. -/
def Regex.Char.len_utf8 (c : Regex.Char) : Nat :=
  (char_from_u32 c.val).elim 0 char_len_utf8

/-- Source `impl From<char> for Char`: `Char(c as u32)`. -/
def Regex.Char.fromScalar (c : Nat) : Regex.Char := ⟨c⟩

/-- Source `impl From<Option<char>> for Char`:
`c.map_or(Char(u32::MAX), |c| c.into())`. -/
def Regex.Char.fromOption (c : Option Nat) : Regex.Char :=
  c.elim ⟨U32_MAX⟩ Regex.Char.fromScalar

/-- Source `impl PartialEq<char> for Char`: `self.0 == *other as u32`. -/
def Regex.Char.eq_char (c : Regex.Char) (other : Nat) : Bool := c.val == other

/-- Source `impl PartialEq<Char> for char`: `*self as u32 == other.0`. -/
def char_eq_Char (self : Nat) (other : Regex.Char) : Bool := self == other.val

/-- Total order on `u32` values, as used by Rust's `Ord`/`PartialOrd`
on `u32` (whose `partial_cmp` always returns `Some` of this). -/
def u32_cmp (a b : Nat) : Ordering :=
  if a < b then .lt else if a = b then .eq else .gt

/-- Source `impl PartialOrd<char> for Char`:
`self.0.partial_cmp(&(*other as u32))`. -/
def Regex.Char.cmp_char (c : Regex.Char) (other : Nat) : Option Ordering :=
  some (u32_cmp c.val other)

/-- Source `impl PartialOrd<Char> for char`:
`(*self as u32).partial_cmp(&other.0)`. -/
def char_cmp_Char (self : Nat) (other : Regex.Char) : Option Ordering :=
  some (u32_cmp self other.val)

/-- Source `InputAt`: a location in the input. -/
structure InputAt where
  pos : Nat
  c : Regex.Char
  byte : Option Nat
  len : Nat
deriving DecidableEq

/-- Source `InputAt::is_start`: true iff at the beginning of the input. -/
def InputAt.is_start (a : InputAt) : Bool := a.pos == 0

/-- Source `InputAt::is_end`: true iff past the end of the input,
`self.c.is_none() && self.byte.is_none()`. -/
def InputAt.is_end (a : InputAt) : Bool := a.c.is_none && a.byte.isNone

/-- Source `InputAt::char`: the character at this position. -/
def InputAt.char (a : InputAt) : Regex.Char := a.c

/-- Source `InputAt::next_pos`: `self.pos + self.len`. -/
def InputAt.next_pos (a : InputAt) : Nat := a.pos + a.len

/-- True iff a byte can begin a UTF-8 sequence (it is not a continuation
byte). Helper for the backward decoder. -/
def is_start_byte (b : Nat) : Bool := b < 0x80 || 0xC0 ≤ b

/-- True iff a byte is a UTF-8 continuation byte (`0x80..=0xBF`). -/
def is_cont (b : Nat) : Bool := 0x80 ≤ b && b < 0xC0

/-- Modelled from the spec: the forward UTF-8 decoder `decode_utf8` from
`utf8.rs`, which is not under `src/`. Per the spec, it decodes the scalar
value at the start of the slice only, returning the scalar and its byte
length, and returns none at end of input or on malformed bytes. This is
strict UTF-8: overlong encodings, surrogates, and out-of-range leads fail. -/
def decode_utf8 (src : List Nat) : Option (Nat × Nat) :=
  match src with
  | [] => none
  | b0 :: rest =>
    if b0 < 0x80 then some (b0, 1)
    else if b0 < 0xC2 then none
    else if b0 < 0xE0 then
      match rest with
      | b1 :: _ =>
        if is_cont b1 then some ((b0 - 0xC0) * 0x40 + (b1 - 0x80), 2) else none
      | [] => none
    else if b0 < 0xF0 then
      match rest with
      | b1 :: b2 :: _ =>
        if is_cont b1 && is_cont b2 then
          let cp := (b0 - 0xE0) * 0x1000 + (b1 - 0x80) * 0x40 + (b2 - 0x80)
          if cp < 0x800 ∨ (0xD800 ≤ cp ∧ cp ≤ 0xDFFF) then none
          else some (cp, 3)
        else none
      | _ => none
    else if b0 < 0xF5 then
      match rest with
      | b1 :: b2 :: b3 :: _ =>
        if is_cont b1 && is_cont b2 && is_cont b3 then
          let cp := (b0 - 0xF0) * 0x40000 + (b1 - 0x80) * 0x1000
            + (b2 - 0x80) * 0x40 + (b3 - 0x80)
          if cp < 0x10000 ∨ 0x10FFFF < cp then none
          else some (cp, 4)
        else none
      | _ => none
    else none

/-- Modelled from the spec: the backward UTF-8 decoder `decode_last_utf8`
from `utf8.rs`, which is not under `src/`. Per the spec, it decodes the last
complete scalar value ending at the end of the slice, scanning backward up
to the maximum UTF-8 sequence length (4 bytes) for a valid sequence start,
and returns none if none is found (empty input or malformed bytes). -/
def decode_last_utf8 (src : List Nat) : Option (Nat × Nat) :=
  let n := src.length
  let tryAt (k : Nat) : Option (Nat × Nat) :=
    match decode_utf8 (src.drop (n - k)) with
    | some (c, len) => if len = k then some (c, len) else none
    | none => none
  if n = 0 then none
  else if is_start_byte (src.getD (n - 1) 0) then tryAt 1
  else if 2 ≤ n ∧ is_start_byte (src.getD (n - 2) 0) then tryAt 2
  else if 3 ≤ n ∧ is_start_byte (src.getD (n - 3) 0) then tryAt 3
  else if 4 ≤ n then tryAt 4
  else none

/-- Modelled from the spec: the literal searcher from `literals.rs`, which
is not under `src/`. Only its interface matters here: `find` over a byte
slice returns the span `(matchStart, matchEnd)` of the earliest occurrence
of any registered literal, or none. -/
structure LiteralSearcher where
  find : List Nat → Option (Nat × Nat)

/-- Source `CharInput::at`: decodes the character at byte offset `i`; the
descriptor stores the decoded character, no byte, and the character's
UTF-8 width as the step length. -/
def CharInput.atPos (s : List Nat) (i : Nat) : InputAt :=
  let c := Regex.Char.fromOption ((decode_utf8 (s.drop i)).map Prod.fst)
  ⟨i, c, none, c.len_utf8⟩

/-- Source `CharInput::next_char`: returns `at.char()`, the character the
descriptor already holds. -/
def CharInput.next_char (s : List Nat) (a : InputAt) : Regex.Char :=
  a.char

/-- Source `CharInput::previous_char`: backward decode of the prefix
ending at the descriptor's offset. -/
def CharInput.previous_char (s : List Nat) (a : InputAt) : Regex.Char :=
  Regex.Char.fromOption ((decode_last_utf8 (s.take a.pos)).map Prod.fst)

/-- Source `CharInput::prefix_at`: delegates to the literal searcher on the
suffix at the descriptor's offset, and maps a match starting `st` bytes in
to the descriptor at `at.pos() + st`. -/
def CharInput.prefix_at (s : List Nat) (prefixes : LiteralSearcher)
    (a : InputAt) : Option InputAt :=
  (prefixes.find (s.drop a.pos)).map (fun p => CharInput.atPos s (a.pos + p.1))

/-- Source `ByteInput::at`: character always absent, raw byte via `get`
(none past the end), step length always 1. -/
def ByteInput.atPos (s : List Nat) (i : Nat) : InputAt :=
  ⟨i, Regex.Char.fromOption none, s.get? i, 1⟩

/-- Source `ByteInput::next_char`: fresh forward decode at the
descriptor's offset. -/
def ByteInput.next_char (s : List Nat) (a : InputAt) : Regex.Char :=
  Regex.Char.fromOption ((decode_utf8 (s.drop a.pos)).map Prod.fst)

/-- Source `ByteInput::previous_char`: backward decode of the prefix
ending at the descriptor's offset. -/
def ByteInput.previous_char (s : List Nat) (a : InputAt) : Regex.Char :=
  Regex.Char.fromOption ((decode_last_utf8 (s.take a.pos)).map Prod.fst)

/-- Source `ByteInput::prefix_at`: identical delegation to the literal
searcher as in character mode. -/
def ByteInput.prefix_at (s : List Nat) (prefixes : LiteralSearcher)
    (a : InputAt) : Option InputAt :=
  (prefixes.find (s.drop a.pos)).map (fun p => ByteInput.atPos s (a.pos + p.1))

/-- Rust's slice-from operation `&s[i..]`, which panics when `i > s.len()`:
modelled as a fallible operation, `none` standing for the fault. -/
def sliceFrom (s : List Nat) (i : Nat) : Option (List Nat) :=
  if i ≤ s.length then some (s.drop i) else none

/-- Rust's slice-to operation `&s[..i]`, which panics when `i > s.len()`:
modelled as a fallible operation, `none` standing for the fault. -/
def sliceTo (s : List Nat) (i : Nat) : Option (List Nat) :=
  if i ≤ s.length then some (s.take i) else none

/-- `CharInput::at` with the source's fallible slicing made explicit:
`none` means the Rust code would have panicked. -/
def CharInput.atChecked (s : List Nat) (i : Nat) : Option InputAt :=
  (sliceFrom s i).map (fun suf =>
    let c := Regex.Char.fromOption ((decode_utf8 suf).map Prod.fst)
    ⟨i, c, none, c.len_utf8⟩)

/-- `ByteInput::at` with fallibility made explicit: it performs no slicing
(`get` is non-panicking), so it always succeeds. -/
def ByteInput.atChecked (s : List Nat) (i : Nat) : Option InputAt :=
  some (ByteInput.atPos s i)

/-- `CharInput::next_char` with fallibility made explicit: it only reads
the descriptor, so it always succeeds. -/
def CharInput.next_charChecked (s : List Nat) (a : InputAt) : Option Regex.Char :=
  some a.char

/-- `ByteInput::next_char` with the source's fallible slicing made
explicit. -/
def ByteInput.next_charChecked (s : List Nat) (a : InputAt) : Option Regex.Char :=
  (sliceFrom s a.pos).map (fun suf =>
    Regex.Char.fromOption ((decode_utf8 suf).map Prod.fst))

/-- `CharInput::previous_char` with the source's fallible slicing made
explicit. -/
def CharInput.previous_charChecked (s : List Nat) (a : InputAt) :
    Option Regex.Char :=
  (sliceTo s a.pos).map (fun pre =>
    Regex.Char.fromOption ((decode_last_utf8 pre).map Prod.fst))

/-- `ByteInput::previous_char` with the source's fallible slicing made
explicit. -/
def ByteInput.previous_charChecked (s : List Nat) (a : InputAt) :
    Option Regex.Char :=
  (sliceTo s a.pos).map (fun pre =>
    Regex.Char.fromOption ((decode_last_utf8 pre).map Prod.fst))

/-- The absent character is the sentinel value. -/
lemma fromOption_none_eq : Regex.Char.fromOption none = ⟨U32_MAX⟩ := rfl

/-- The sentinel reports itself absent. -/
lemma sentinel_is_none : Regex.Char.is_none ⟨U32_MAX⟩ = true := by
  show (U32_MAX == U32_MAX) = true
  exact beq_self_eq_true U32_MAX

/-- The sentinel has UTF-8 width 0. -/
lemma sentinel_len_utf8 : Regex.Char.len_utf8 ⟨U32_MAX⟩ = 0 := by decide

/-- A value below the sentinel does not report itself absent. -/
lemma below_sentinel_not_none {c : Nat} (h : c < U32_MAX) :
    (Regex.Char.fromScalar c).is_none = false := by
  show (c == U32_MAX) = false
  exact beq_eq_false_iff_ne.mpr (Nat.ne_of_lt h)

/-- Any descriptor whose character is the sentinel and whose byte is none
satisfies `is_end`. -/
lemma is_end_absent (p l : Nat) :
    InputAt.is_end ⟨p, ⟨U32_MAX⟩, none, l⟩ = true := by
  show (Regex.Char.is_none ⟨U32_MAX⟩ && Option.isNone (none : Option Nat)) = true
  rw [sentinel_is_none]
  rfl

/-- `char::from_u32` succeeds on every Unicode scalar value. -/
lemma char_from_u32_scalar {c : Nat} (hc : IsScalar c) :
    char_from_u32 c = some c := by
  unfold IsScalar at hc
  unfold char_from_u32
  rw [if_neg]
  rintro (h | h)
  · omega
  · exact hc.2 h

/-- A Unicode scalar value is numerically below the absent sentinel. -/
lemma scalar_lt_sentinel {c : Nat} (hc : IsScalar c) : c < U32_MAX := by
  unfold IsScalar at hc
  unfold U32_MAX
  omega

/-- C1: for every byte buffer and both cursor modes, the descriptor at
offset `len()` satisfies `is_end()` (its character field is absent and its
byte field is none), and the descriptor at offset 0 satisfies
`is_start()`. -/
theorem at_len_is_end_at_zero_is_start (s : List Nat) :
    (CharInput.atPos s s.length).is_end = true ∧
    (ByteInput.atPos s s.length).is_end = true ∧
    (CharInput.atPos s 0).is_start = true ∧
    (ByteInput.atPos s 0).is_start = true ∧
    (CharInput.atPos s s.length).c.is_none = true ∧
    (CharInput.atPos s s.length).byte = none ∧
    (ByteInput.atPos s s.length).c.is_none = true ∧
    (ByteInput.atPos s s.length).byte = none := by
  have hdrop : s.drop s.length = [] := List.drop_length s
  have hget : s.get? s.length = none := List.get?_eq_none.mpr (le_refl _)
  have hchar : CharInput.atPos s s.length = ⟨s.length, ⟨U32_MAX⟩, none, 0⟩ := by
    unfold CharInput.atPos
    rw [hdrop]
    exact congrArg (fun l => InputAt.mk s.length ⟨U32_MAX⟩ none l) sentinel_len_utf8
  have hbyte : ByteInput.atPos s s.length = ⟨s.length, ⟨U32_MAX⟩, none, 1⟩ := by
    unfold ByteInput.atPos
    rw [hget, fromOption_none_eq]
  rw [hchar, hbyte]
  exact ⟨is_end_absent _ _, is_end_absent _ _, rfl, rfl,
    sentinel_is_none, rfl, sentinel_is_none, rfl⟩

/-- C2: for every byte buffer and every offset, the byte-mode descriptor
has step length 1, an absent character, and the raw byte of the buffer at
that offset when in range (none past the end), regardless of UTF-8
decodability. -/
theorem byteInput_at_fields (s : List Nat) (i : Nat) :
    (ByteInput.atPos s i).len = 1 ∧
    (ByteInput.atPos s i).c.is_none = true ∧
    (ByteInput.atPos s i).byte =
      (if h : i < s.length then some (s.get ⟨i, h⟩) else none) := by
  refine ⟨rfl, sentinel_is_none, ?_⟩
  show s.get? i = _
  by_cases h : i < s.length
  · rw [dif_pos h]
    exact List.get?_eq_get h
  · rw [dif_neg h]
    exact List.get?_eq_none.mpr (Nat.le_of_not_lt h)

/-- C3: in both cursor modes, `next_char` on the descriptor at offset `p`
is exactly the forward UTF-8 decode of the suffix starting at `p`, and
`previous_char` is exactly the backward UTF-8 decode of the prefix ending
at `p`; the two modes agree, and the character-mode `next_char` (which
returns the character stored in the descriptor) agrees with a fresh decode
at that offset. -/
theorem next_prev_char_decode (s : List Nat) (p : Nat) (hp : p ≤ s.length) :
    CharInput.next_char s (CharInput.atPos s p) =
      Regex.Char.fromOption ((decode_utf8 (s.drop p)).map Prod.fst) ∧
    ByteInput.next_char s (ByteInput.atPos s p) =
      Regex.Char.fromOption ((decode_utf8 (s.drop p)).map Prod.fst) ∧
    CharInput.previous_char s (CharInput.atPos s p) =
      Regex.Char.fromOption ((decode_last_utf8 (s.take p)).map Prod.fst) ∧
    ByteInput.previous_char s (ByteInput.atPos s p) =
      Regex.Char.fromOption ((decode_last_utf8 (s.take p)).map Prod.fst) ∧
    CharInput.next_char s (CharInput.atPos s p) =
      ByteInput.next_char s (ByteInput.atPos s p) ∧
    CharInput.previous_char s (CharInput.atPos s p) =
      ByteInput.previous_char s (ByteInput.atPos s p) :=
  ⟨rfl, rfl, rfl, rfl, rfl, rfl⟩

/-- C3 witness: concrete evaluation at buffer `[0x61]`, offset 0. -/
theorem next_prev_char_decode_witness :
    CharInput.next_char [0x61] (CharInput.atPos [0x61] 0) =
      Regex.Char.fromOption ((decode_utf8 ([0x61].drop 0)).map Prod.fst) :=
  (next_prev_char_decode [0x61] 0 (by decide)).1

/-- C4: in character mode, when forward decoding fails at offset `i`
(malformed bytes or end of input), the descriptor at `i` has step length 0
(the absent character's zero UTF-8 width), hence `next_pos` equals `i`. -/
theorem charInput_at_undecodable (s : List Nat) (i : Nat)
    (hi : i ≤ s.length) (hd : decode_utf8 (s.drop i) = none) :
    (CharInput.atPos s i).len = 0 ∧
    (CharInput.atPos s i).next_pos = i ∧
    (CharInput.atPos s i).c.is_none = true := by
  have ha : CharInput.atPos s i = ⟨i, ⟨U32_MAX⟩, none, 0⟩ := by
    unfold CharInput.atPos
    rw [hd]
    exact congrArg (fun l => InputAt.mk i ⟨U32_MAX⟩ none l) sentinel_len_utf8
  rw [ha]
  exact ⟨rfl, Nat.add_zero i, sentinel_is_none⟩

/-- C4 witness: the single invalid lead byte `0xFF` at offset 0. -/
theorem charInput_at_undecodable_witness :
    (CharInput.atPos [0xFF] 0).len = 0 ∧
    (CharInput.atPos [0xFF] 0).next_pos = 0 :=
  ⟨(charInput_at_undecodable [0xFF] 0 (by decide) (by decide)).1,
   (charInput_at_undecodable [0xFF] 0 (by decide) (by decide)).2.1⟩

/-- C5: for any offset in `0..=len()`, `at` in both modes and
`next_char`/`previous_char` on any descriptor at such an offset never
fault: the checked variants (in which Rust's panicking slice operations
are modelled as fallible) succeed and return the unchecked results. -/
theorem in_range_no_fault (s : List Nat) (i : Nat) (h : i ≤ s.length) :
    CharInput.atChecked s i = some (CharInput.atPos s i) ∧
    ByteInput.atChecked s i = some (ByteInput.atPos s i) ∧
    ∀ a : InputAt, a.pos = i →
      CharInput.next_charChecked s a = some (CharInput.next_char s a) ∧
      ByteInput.next_charChecked s a = some (ByteInput.next_char s a) ∧
      CharInput.previous_charChecked s a = some (CharInput.previous_char s a) ∧
      ByteInput.previous_charChecked s a = some (ByteInput.previous_char s a) := by
  have hf : sliceFrom s i = some (s.drop i) := by
    unfold sliceFrom
    rw [if_pos h]
  have ht : sliceTo s i = some (s.take i) := by
    unfold sliceTo
    rw [if_pos h]
  refine ⟨?_, rfl, ?_⟩
  · unfold CharInput.atChecked
    rw [hf]
    rfl
  · intro a ha
    refine ⟨rfl, ?_, ?_, ?_⟩
    · unfold ByteInput.next_charChecked ByteInput.next_char
      rw [ha, hf]
      rfl
    · unfold CharInput.previous_charChecked CharInput.previous_char
      rw [ha, ht]
      rfl
    · unfold ByteInput.previous_charChecked ByteInput.previous_char
      rw [ha, ht]
      rfl

/-- C5 witness: buffer `[0x61]` at its end offset 1. -/
theorem in_range_no_fault_witness :
    CharInput.atChecked [0x61] 1 = some (CharInput.atPos [0x61] 1) ∧
    CharInput.previous_charChecked [0x61] (CharInput.atPos [0x61] 1) =
      some (CharInput.previous_char [0x61] (CharInput.atPos [0x61] 1)) :=
  ⟨(in_range_no_fault [0x61] 1 (by decide)).1,
   ((in_range_no_fault [0x61] 1 (by decide)).2.2
      (CharInput.atPos [0x61] 1) rfl).2.2.1⟩

/-- C6: in both cursor modes, `prefix_at` from a descriptor at offset `p`
returns none exactly when the literal searcher finds no match in the
suffix starting at `p`, and when the searcher reports a match starting `st`
bytes into that suffix, `prefix_at` returns the descriptor produced by
`at(p + st)`. -/
theorem prefix_at_delegates (s : List Nat) (prefixes : LiteralSearcher)
    (p : Nat) (a : InputAt) (hp : p ≤ s.length) (ha : a.pos = p) :
    (CharInput.prefix_at s prefixes a = none ↔
      prefixes.find (s.drop p) = none) ∧
    (ByteInput.prefix_at s prefixes a = none ↔
      prefixes.find (s.drop p) = none) ∧
    (∀ st en, prefixes.find (s.drop p) = some (st, en) →
      CharInput.prefix_at s prefixes a = some (CharInput.atPos s (p + st)) ∧
      ByteInput.prefix_at s prefixes a = some (ByteInput.atPos s (p + st))) := by
  subst ha
  refine ⟨?_, ?_, ?_⟩
  · unfold CharInput.prefix_at
    exact Option.map_eq_none'
  · unfold ByteInput.prefix_at
    exact Option.map_eq_none'
  · intro st en hsome
    unfold CharInput.prefix_at ByteInput.prefix_at
    rw [hsome]
    exact ⟨rfl, rfl⟩

/-- C6 witness: a searcher reporting a match one byte into the suffix. -/
theorem prefix_at_delegates_witness :
    CharInput.prefix_at [0x61, 0x62, 0x63] ⟨fun _ => some (1, 2)⟩
        (CharInput.atPos [0x61, 0x62, 0x63] 0) =
      some (CharInput.atPos [0x61, 0x62, 0x63] (0 + 1)) :=
  ((prefix_at_delegates [0x61, 0x62, 0x63] ⟨fun _ => some (1, 2)⟩ 0
      (CharInput.atPos [0x61, 0x62, 0x63] 0) (by decide) rfl).2.2 1 2 rfl).1

/-- The numeric `u32` comparison yields `eq` exactly on equal values. -/
lemma u32_cmp_eq_iff (a b : Nat) : u32_cmp a b = Ordering.eq ↔ a = b := by
  unfold u32_cmp
  split_ifs with h1 h2 <;> simp <;> omega

/-- The numeric `u32` comparison yields `lt` exactly when the first value
is smaller. -/
lemma u32_cmp_lt_iff (a b : Nat) : u32_cmp a b = Ordering.lt ↔ a < b := by
  unfold u32_cmp
  split_ifs with h1 h2 <;> simp <;> omega

/-- The numeric `u32` comparison yields `gt` exactly when the second value
is smaller. -/
lemma u32_cmp_gt_iff (a b : Nat) : u32_cmp a b = Ordering.gt ↔ b < a := by
  unfold u32_cmp
  split_ifs with h1 h2 <;> simp <;> omega

/-- C7: the scalar-with-absence value built from none is absent with UTF-8
width 0; the value built from a real character `c` (directly or via
`Some(c)`) is present — the sentinel collides with no scalar value — and
its UTF-8 width is the UTF-8 byte length of `c`. -/
theorem char_construction (c : Nat) (hc : IsScalar c) :
    (Regex.Char.fromOption none).is_none = true ∧
    (Regex.Char.fromOption none).len_utf8 = 0 ∧
    Regex.Char.fromOption (some c) = Regex.Char.fromScalar c ∧
    (Regex.Char.fromScalar c).is_none = false ∧
    (Regex.Char.fromScalar c).len_utf8 = char_len_utf8 c := by
  refine ⟨sentinel_is_none, sentinel_len_utf8, rfl,
    below_sentinel_not_none (scalar_lt_sentinel hc), ?_⟩
  show (char_from_u32 c).elim 0 char_len_utf8 = char_len_utf8 c
  rw [char_from_u32_scalar hc]
  rfl

/-- C7 witness: the character `'a'` (code point 0x61). -/
theorem char_construction_witness :
    (Regex.Char.fromScalar 0x61).is_none = false ∧
    (Regex.Char.fromScalar 0x61).len_utf8 = char_len_utf8 0x61 :=
  ⟨(char_construction 0x61 (by decide)).2.2.2.1,
   (char_construction 0x61 (by decide)).2.2.2.2⟩

/-- C8: in both cursor modes, the descriptor at offset `i` reports
`pos() == i` for every in-range offset. -/
theorem at_pos_eq (s : List Nat) (i : Nat) (h : i ≤ s.length) :
    (CharInput.atPos s i).pos = i ∧ (ByteInput.atPos s i).pos = i :=
  ⟨rfl, rfl⟩

/-- C8 witness: buffer `[0x61]`, offset 1. -/
theorem at_pos_eq_witness : (CharInput.atPos [0x61] 1).pos = 1 :=
  (at_pos_eq [0x61] 1 (by decide)).1

/-- C9: equality and partial ordering between a present
scalar-with-absence value and a real character, in both argument orders,
reduce to numeric comparison of the two code points. -/
theorem char_cmp_real (c1 c2 : Nat) (h1 : IsScalar c1) (h2 : IsScalar c2) :
    ((Regex.Char.fromScalar c1).eq_char c2 = true ↔ c1 = c2) ∧
    (char_eq_Char c2 (Regex.Char.fromScalar c1) = true ↔ c2 = c1) ∧
    (Regex.Char.fromScalar c1).cmp_char c2 = some (u32_cmp c1 c2) ∧
    char_cmp_Char c2 (Regex.Char.fromScalar c1) = some (u32_cmp c2 c1) ∧
    ((Regex.Char.fromScalar c1).cmp_char c2 = some Ordering.eq ↔ c1 = c2) ∧
    ((Regex.Char.fromScalar c1).cmp_char c2 = some Ordering.lt ↔ c1 < c2) ∧
    ((Regex.Char.fromScalar c1).cmp_char c2 = some Ordering.gt ↔ c2 < c1) := by
  refine ⟨?_, ?_, rfl, rfl, ?_, ?_, ?_⟩
  · show (c1 == c2) = true ↔ c1 = c2
    exact beq_iff_eq
  · show (c2 == c1) = true ↔ c2 = c1
    exact beq_iff_eq
  · exact Option.some_inj.trans (u32_cmp_eq_iff c1 c2)
  · exact Option.some_inj.trans (u32_cmp_lt_iff c1 c2)
  · exact Option.some_inj.trans (u32_cmp_gt_iff c1 c2)

/-- C9 witness: `'a'` (0x61) against `'b'` (0x62). -/
theorem char_cmp_real_witness :
    (Regex.Char.fromScalar 0x61).cmp_char 0x62 = some Ordering.lt :=
  (char_cmp_real 0x61 0x62 (by decide) (by decide)).2.2.2.2.2.1.mpr (by decide)

/-- C10: the absent value equals no real character and compares strictly
greater than every real character (and every real character compares
strictly less than it). -/
theorem absent_cmp_real (c : Nat) (hc : IsScalar c) :
    (Regex.Char.fromOption none).eq_char c = false ∧
    char_eq_Char c (Regex.Char.fromOption none) = false ∧
    (Regex.Char.fromOption none).cmp_char c = some Ordering.gt ∧
    char_cmp_Char c (Regex.Char.fromOption none) = some Ordering.lt := by
  have hlt : c < U32_MAX := scalar_lt_sentinel hc
  refine ⟨?_, ?_, ?_, ?_⟩
  · show (U32_MAX == c) = false
    exact beq_eq_false_iff_ne.mpr (Nat.ne_of_gt hlt)
  · show (c == U32_MAX) = false
    exact beq_eq_false_iff_ne.mpr (Nat.ne_of_lt hlt)
  · show some (u32_cmp U32_MAX c) = some Ordering.gt
    exact congrArg some ((u32_cmp_gt_iff U32_MAX c).mpr hlt)
  · show some (u32_cmp c U32_MAX) = some Ordering.lt
    exact congrArg some ((u32_cmp_lt_iff c U32_MAX).mpr hlt)

/-- C10 witness: the absent value against `'a'` (0x61). -/
theorem absent_cmp_real_witness :
    (Regex.Char.fromOption none).cmp_char 0x61 = some Ordering.gt :=
  (absent_cmp_real 0x61 (by decide)).2.2.1
